import Mathlib

/-!
Verification of the ProjectDiscovery repository claims.

Shallow embedding conventions:
* Go strings are modelled as `List Char` (`Chars`); Go byte slices likewise.
* Go maps are modelled as association lists with unique keys built by
  `setEntry` (insert-or-overwrite, mirroring `m[k] = v`); because Go map
  iteration order is unspecified, every theorem that depends on iteration
  order quantifies over an arbitrary permutation of the entry list.
* Fallible Go calls return `Except`/`Option`.
-/

namespace ProjectDiscovery

/-- Go strings and byte slices are modelled as lists of characters. -/
abbrev Chars := List Char

/-- Variable maps (`map[string]interface{}` holding strings). -/
abbrev VarMap := List (Chars × Chars)

/-- Go map assignment `m[k] = v`: overwrite the binding if the key is
present, otherwise add it. -/
def setEntry {α : Type} : List (Chars × α) → Chars → α → List (Chars × α)
  | [], k, v => [(k, v)]
  | (k0, v0) :: rest, k, v =>
    if k0 = k then (k, v) :: rest else (k0, v0) :: setEntry rest k v

/-- Go map lookup `m[k]`: first binding of the key (the only one, for maps
built by `setEntry`). -/
def lookupEntry {α : Type} : List (Chars × α) → Chars → Option α
  | [], _ => none
  | (k0, v0) :: rest, k => if k0 = k then some v0 else lookupEntry rest k

/-- Value of the last binding of a key in an entry list (used to reason
about folds of `setEntry` over entry lists that may repeat keys). -/
def lookupLast {α : Type} : List (Chars × α) → Chars → Option α
  | [], _ => none
  | (k0, v0) :: rest, k =>
    match lookupLast rest k with
    | some v => some v
    | none => if k0 = k then some v0 else none

/-- A Go `for k, v := range l { m[k] = v }` loop writing into map `m`. -/
def foldSet {α : Type} (m : List (Chars × α)) (l : List (Chars × α)) :
    List (Chars × α) :=
  l.foldl (fun acc kv => setEntry acc kv.1 kv.2) m

/-- `generators.MergeMaps(m1, m2)`: a fresh map holding `m1`'s entries with
`m2`'s entries written on top (later maps override earlier ones). -/
def mergeEntries {α : Type} (m1 m2 : List (Chars × α)) : List (Chars × α) :=
  foldSet m1 m2

/-- The entry list represents a Go map: every key appears at most once. -/
def keysNodup {α : Type} (m : List (Chars × α)) : Prop :=
  (m.map Prod.fst).Nodup

/-! ## Auth provider (`pkg/authprovider/file.go`) -/

/-- An `authx.AuthStrategy` value; only its identity matters here. -/
structure AuthStrategy where
  sid : Nat
deriving DecidableEq

/-- A compiled regular expression (`*regexp.Regexp`), abstracted to its
`MatchString` behaviour. Each call to `regexp.Compile` yields a distinct
pointer, so the Go `compiled` map never merges two entries. -/
structure RePattern where
  matchString : Chars → Bool

/-- An `authx.Secret`: declared exact domains, declared regex patterns and
the strategy `GetStrategy` returns for it. `strategyOk` abstracts
well-formedness of the strategy part. -/
structure Secret where
  domains : List Chars
  domainsRegex : List Chars
  strategy : AuthStrategy
  strategyOk : Bool

/-- Modelled from the spec: `authx.Secret.Validate` (package
`pkg/authprovider/authx` is not under `src/`) — a secret is valid when at
least one of the domain or pattern sets is non-empty and the strategy is
well-formed. -/
def Secret.validate (s : Secret) : Bool :=
  (!s.domains.isEmpty || !s.domainsRegex.isEmpty) && s.strategyOk

/-- Errors of `NewFileAuthProvider`: the dedicated `ErrNoSecrets` and the
wrapped validation error. -/
inductive AuthErr where
  | noSecrets
  | invalidSecret
deriving DecidableEq

/-- `strings.TrimSpace`. -/
def trimChars (cs : Chars) : Chars :=
  ((cs.dropWhile Char.isWhitespace).reverse.dropWhile Char.isWhitespace).reverse

/-- The `compiled` map built by `FileAuthProvider.init`: one entry per
successfully compiled `DomainsRegex` pattern (a pattern that fails to
compile is skipped by `continue`); keys are fresh pointers, so the entry
list keeps every successful compilation. -/
def initCompiled (compile : Chars → Option RePattern) (secrets : List Secret) :
    List (RePattern × AuthStrategy) :=
  secrets.foldl
    (fun acc s =>
      acc ++ s.domainsRegex.filterMap fun d => (compile d).map fun p => (p, s.strategy))
    []

/-- The `domains` map built by `FileAuthProvider.init`: keyed by the
trimmed domain string, later writes overwriting earlier ones. -/
def initDomains (secrets : List Secret) : List (Chars × AuthStrategy) :=
  secrets.foldl
    (fun acc s => s.domains.foldl (fun acc2 d => setEntry acc2 (trimChars d) s.strategy) acc)
    []

/-- The `FileAuthProvider` after `init`. -/
structure FileAuthProvider where
  secrets : List Secret
  domains : List (Chars × AuthStrategy)
  compiled : List (RePattern × AuthStrategy)

/-- Building the provider value (`init` applied to a validated store). -/
def mkFileAuthProvider (compile : Chars → Option RePattern)
    (secrets : List Secret) : FileAuthProvider :=
  ⟨secrets, initDomains secrets, initCompiled compile secrets⟩

/-- `NewFileAuthProvider` after the store has been parsed: empty store
fails with `ErrNoSecrets`; any invalid secret fails with the wrapped
validation error; otherwise `init` runs and the provider is returned. -/
def newFileAuthProvider (compile : Chars → Option RePattern)
    (secrets : List Secret) : Except AuthErr FileAuthProvider :=
  if secrets.isEmpty then .error .noSecrets
  else if secrets.all (fun s => s.validate) then .ok (mkFileAuthProvider compile secrets)
  else .error .invalidSecret

/-- `strings.Contains(cs, c)` for a single-character needle. -/
def hasChar (cs : Chars) (c : Char) : Bool :=
  cs.any fun x => x = c

/-- Number of occurrences of a character. -/
def countChar (cs : Chars) (c : Char) : Nat :=
  cs.countP fun x => x = c

/-- `net.SplitHostPort` restricted to the unbracketed form `host:port`:
split at the single colon; more than one colon is the "too many colons"
error and brackets take the (unmodelled, unused here) IPv6 path. -/
def splitHostPort (addr : Chars) : Option (Chars × Chars) :=
  if countChar addr ':' = 1 ∧ hasChar addr '[' = false ∧ hasChar addr ']' = false then
    some (addr.takeWhile fun c => c ≠ ':', (addr.dropWhile fun c => c ≠ ':').tail)
  else none

/-- `strings.EqualFold`, modelled as equality after lower-casing. -/
def eqFold (a b : Chars) : Bool :=
  a.map Char.toLower = b.map Char.toLower

/-- The normalization prefix of `LookupAddr`: when the address contains a
colon and splits as `host:port` with port 80 or 443, the port is
stripped. -/
def normalizeAuthAddr (addr : Chars) : Chars :=
  if hasChar addr ':' = true then
    match splitHostPort addr with
    | some (host, port) =>
      if port = "80".data ∨ port = "443".data then host else addr
    | none => addr
  else addr

/-- `FileAuthProvider.LookupAddr`. The two range loops iterate Go maps, so
the function takes the iteration orders (`domIter`, `patIter`) as inputs;
theorems quantify over permutations of the built entry lists. -/
def lookupAddr (domIter : List (Chars × AuthStrategy))
    (patIter : List (RePattern × AuthStrategy)) (addr : Chars) :
    Option AuthStrategy :=
  let a := normalizeAuthAddr addr
  match domIter.find? (fun kv => eqFold kv.1 a) with
  | some kv => some kv.2
  | none => (patIter.find? fun kv => kv.1.matchString a).map Prod.snd

/-! ## Placeholder detection (`expressions.ContainsUnresolvedVariables`) -/

/-- Does `cs` start with the prefix `pre`? (`strings.HasPrefix pre`.) -/
def begins : Chars → Chars → Bool
  | [], _ => true
  | _ :: _, [] => false
  | a :: s, b :: t => a = b && begins s t

/-- Characters allowed inside a placeholder name. -/
def isIdentChar (c : Char) : Bool :=
  c.isAlphanum || c = '_'

/-- Modelled from the spec: `expressions.ContainsUnresolvedVariables`
(package `protocols/common/expressions` is not under `src/`) reports
whether the text still holds an unresolved placeholder, written
`\x7b\x7bname\x7d\x7d` for a non-empty identifier `name`. -/
def hasPlaceholder : Chars → Bool
  | [] => false
  | c :: rest =>
    if c = '\x7b' then
      match rest with
      | [] => false
      | c2 :: rest2 =>
        if c2 = '\x7b' then
          let ident := rest2.takeWhile isIdentChar
          if !ident.isEmpty && begins ['\x7d', '\x7d'] (rest2.drop ident.length) then true
          else hasPlaceholder rest
        else hasPlaceholder rest
    else hasPlaceholder rest

/-! ## DNS protocol (`src/unnamed/part_000`, `Request.execute`) -/

/-- A built `*dns.Msg`, abstracted to its `String()` rendering. -/
structure DnsMsg where
  text : Chars

/-- Observable outcome of `Request.execute` for the DNS protocol:
whether a non-nil error was returned, whether an event was returned and
whether `dnsClient.Do` was reached (the request was sent). -/
structure DnsExecResult where
  errorReturned : Bool
  eventReturned : Bool
  sent : Bool
deriving DecidableEq

/-- `Request.execute` of the DNS protocol, keeping the control flow of the
source: `Make` failure returns an error without sending; unresolved
variables in the resolvers with a failing fallback client return
`nil, nil`; an unresolved variable in the rendered request string returns
`nil, nil` (only a warning is logged); otherwise the request is sent and a
nil response yields an error. -/
def dnsExecute (makeResult : Except Unit DnsMsg) (resolvers : List Chars)
    (fallbackClientOk : Bool) (responseOk : Bool) : DnsExecResult :=
  match makeResult with
  | .error _ => ⟨true, false, false⟩
  | .ok msg =>
    if resolvers.any hasPlaceholder ∧ fallbackClientOk = false then ⟨false, false, false⟩
    else if hasPlaceholder msg.text then ⟨false, false, false⟩
    else if responseOk then ⟨false, true, true⟩
    else ⟨true, false, true⟩

/-! ## Network protocol (`src/unnamed/part_001`) -/

/-- Network read errors distinguished by the code (`os.IsTimeout`). -/
inductive NetErr where
  | timeout
  | closed
  | refused
deriving DecidableEq

/-- Result of one `conn.Read(b)` call: the bytes delivered and the error
returned alongside them. -/
structure ReadOutcome where
  bytes : Chars
  err : Option NetErr
deriving DecidableEq

/-- The single-`Read` path of `ConnReadNWithTimeout` (`n > 0` or `n = 0`):
a timeout with some bytes already read returns the partial buffer and a
nil error; any other error is returned; otherwise the bytes read. -/
def connReadSingle (o : ReadOutcome) : Except NetErr Chars :=
  match o.err with
  | some e => if e = .timeout ∧ o.bytes ≠ [] then .ok o.bytes else .error e
  | none => .ok o.bytes

/-- Buffer size allocated by `ConnReadNWithTimeout` for `n ≥ 0`: `n = 0`
falls back to the 4096-byte default. A `conn.Read` can never deliver more
than this many bytes. -/
def readBufSize (n : Int) : Nat :=
  if n = 0 then 4096 else n.toNat

/-- `ConnReadNWithTimeout`: `n = -1` delegates to the read-all helper of
`utils/reader`; otherwise a single `conn.Read` into a buffer of
`readBufSize n` bytes with the timeout-tolerant error handling of
`connReadSingle`. -/
def ConnReadNWithTimeout (n : Int) (readAllResult : Except NetErr Chars)
    (o : ReadOutcome) : Except NetErr Chars :=
  if n = -1 then readAllResult else connReadSingle o

/-- One entry of `request.Inputs` for the network protocol. -/
structure NetInput where
  data : Chars
  read : Nat
  name : Chars
  isHexType : Bool

/-- Abortive errors of `executeRequestWithPayloads`. -/
inductive ExecErr where
  | evalFail
  | unresolved
  | hexFail
  | readFail (e : NetErr)
  | dialFail
deriving DecidableEq

/-- External helpers of the input loop: `expressions.EvaluateByte`,
`hex.DecodeString` and `ExecuteInternalExtractors` (all live outside
`src/`), taken as parameters. -/
structure ExecEnv where
  eval : Chars → VarMap → Except Unit Chars
  hexDecode : Chars → Except Unit Chars
  extract : Chars → Chars → VarMap

/-- Observable state of one `executeRequestWithPayloads` call: the chunks
written to the connection, the `interimValues`, `payloads` and
`inputEvents` maps, the response and request builders, and the
`interimValues` snapshot passed to each input's evaluation. -/
structure ExecState where
  writes : List Chars
  interim : VarMap
  payloads : VarMap
  inputEvents : VarMap
  response : Chars
  reqDump : Chars
  evalTrace : List VarMap

/-- One iteration of the `for _, input := range request.Inputs` loop of
`executeRequestWithPayloads`: evaluate the input against `interimValues`,
refuse to write anything holding an unresolved placeholder, hex-decode
hex-typed inputs, write to the connection, and for `Read > 0` read a
scripted `conn.Read` outcome, bind a named capture into `inputEvents` and
`interimValues` and merge internal-extractor values into `payloads`. An
error carries the state at the abort and the unconsumed script. -/
def processStep (env : ExecEnv) (inp : NetInput) (script : List ReadOutcome)
    (st : ExecState) :
    Except (ExecState × List ReadOutcome × ExecErr) (ExecState × List ReadOutcome) :=
  let st1 := { st with evalTrace := st.evalTrace ++ [st.interim] }
  match env.eval inp.data st.interim with
  | .error _ => .error (st1, script, .evalFail)
  | .ok finalData =>
    let st2 := { st1 with reqDump := st1.reqDump ++ finalData }
    if hasPlaceholder finalData then .error (st2, script, .unresolved)
    else
      match (if inp.isHexType then env.hexDecode finalData else .ok finalData) with
      | .error _ => .error (st2, script, .hexFail)
      | .ok out =>
        let st3 := { st2 with writes := st2.writes ++ [out] }
        if inp.read > 0 then
          match connReadSingle (script.headD ⟨[], some .closed⟩) with
          | .error e => .error (st3, script.tail, .readFail e)
          | .ok buffer =>
            let st4 := { st3 with response := st3.response ++ buffer }
            let st5 :=
              if inp.name ≠ [] then
                { st4 with
                  inputEvents := setEntry st4.inputEvents inp.name buffer,
                  interim := setEntry st4.interim inp.name buffer }
              else st4
            .ok ({ st5 with
                payloads := mergeEntries st5.payloads (env.extract inp.name buffer) },
              script.tail)
        else .ok (st3, script)

/-- The input loop as iterated `processStep`: an erroring step aborts the
loop with that step's state and error. -/
def processInputs (env : ExecEnv) :
    List NetInput → List ReadOutcome → ExecState →
      ExecState × List ReadOutcome × Option ExecErr
  | [], script, st => (st, script, none)
  | inp :: rest, script, st =>
    match processStep env inp script st with
    | .error (st1, sc1, e) => (st1, sc1, some e)
    | .ok (st1, sc1) => processInputs env rest sc1 st1

/-- The `outputEvent` map as assembled after the input loop: the DSL base
map (plus the `ip` and similar direct writes), then `previous`, then
`interimValues`, then `inputEvents`, each loop overwriting earlier keys;
the event payload is `MergeMaps(payloads, outputEvent)`. -/
def buildOutputEvent (base previous interim inputEventsMap payloads : VarMap) : VarMap :=
  mergeEntries payloads (foldSet (foldSet (foldSet base previous) interim) inputEventsMap)

/-- Size of the final read after the loop: `ReadAll` requests -1,
otherwise `ReadSize` when nonzero, else 1024. -/
def finalReadSize (readSize : Nat) (readAll : Bool) : Int :=
  if readAll then -1 else if readSize ≠ 0 then (readSize : Int) else 1024

/-- `executeRequestWithPayloads` (interactsh disabled): dial, run the
input loop, do the final logged-only read and assemble the event map.
Returns the state, the error returned to the caller and the event map. -/
def executeRequestWithPayloads (env : ExecEnv) (dialErr : Option NetErr)
    (inputs : List NetInput) (script : List ReadOutcome)
    (vars0 payloads0 previous base : VarMap)
    (readSize : Nat) (readAll : Bool) (readAllResult : Except NetErr Chars) :
    ExecState × Option ExecErr × Option VarMap :=
  let st0 : ExecState := ⟨[], mergeEntries vars0 payloads0, payloads0, [], [], [], []⟩
  match dialErr with
  | some _ => (st0, some .dialFail, none)
  | none =>
    match processInputs env inputs script st0 with
    | (st, rest, some e) => (st, some e, none)
    | (st, rest, none) =>
      let finalBytes :=
        match ConnReadNWithTimeout (finalReadSize readSize readAll) readAllResult
            (rest.headD ⟨[], some .closed⟩) with
        | .ok b => b
        | .error _ => []
      let st2 := { st with response := st.response ++ finalBytes }
      (st2, none, some (buildOutputEvent base previous st2.interim st2.inputEvents st2.payloads))

/-! ## Clustering of addresses (`Request.executeOnTarget`) -/

/-- One entry of `request.addresses`. -/
structure AddressKV where
  address : Chars
  tls : Bool

/-- The address loop of `executeOnTarget`: substitute variables into each
declared address, skip it when it was already visited and clustering is
enabled, otherwise record it as visited and probe it (`executeAddress`).
Returns the probes performed (resolved address with its TLS flag) and the
final visited set. -/
def executeOnTargetProbes (resolve : Chars → Chars) (disableClustering : Bool) :
    List AddressKV → List Chars → List (Chars × Bool) × List Chars
  | [], visited => ([], visited)
  | kv :: rest, visited =>
    let actual := resolve kv.address
    if actual ∈ visited ∧ disableClustering = false then
      executeOnTargetProbes resolve disableClustering rest visited
    else
      let (probes, visited2) :=
        executeOnTargetProbes resolve disableClustering rest (actual :: visited)
      ((actual, kv.tls) :: probes, visited2)

/-- The per-port loop of `ExecuteWithResults`, threading the one visited
set of the execution through every `executeOnTarget` call (the variable
substitution may differ per port, hence one resolver per call). -/
def executeAllProbes (disableClustering : Bool) (addresses : List AddressKV) :
    List (Chars → Chars) → List Chars → List (Chars × Bool) × List Chars
  | [], visited => ([], visited)
  | resolve :: restPorts, visited =>
    let (probes1, visited1) := executeOnTargetProbes resolve disableClustering addresses visited
    let (probes2, visited2) := executeAllProbes disableClustering addresses restPorts visited1
    (probes1 ++ probes2, visited2)

/-! ## Port scanning (`Request.getOpenPorts`, `Request.ExecuteWithResults`) -/

/-- One template port with the outcomes of the three steps taken for it:
`UseNetworkPort`, `getAddress` and the TCP connect. -/
structure PortCheck where
  port : Chars
  useNetworkPortOk : Bool
  getAddressOk : Bool
  dialOk : Bool
deriving DecidableEq

/-- Errors collected by the `getOpenPorts` loop. -/
inductive PortErr where
  | networkPortErr (p : Chars)
  | addressErr (p : Chars)
  | dialErr (p : Chars)
deriving DecidableEq

/-- The probing loop of `getOpenPorts`: per port, a failing
`UseNetworkPort` or `getAddress` appends an error and skips the dial; a
dial is attempted otherwise, feeding either the open list or the error
list. Returns (open ports, errors, ports actually dialed). -/
def getOpenPortsLoop : List PortCheck → List Chars × List PortErr × List Chars
  | [] => ([], [], [])
  | pc :: rest =>
    let (o, e, d) := getOpenPortsLoop rest
    if pc.useNetworkPortOk = false then (o, .networkPortErr pc.port :: e, d)
    else if pc.getAddressOk = false then (o, .addressErr pc.port :: e, d)
    else if pc.dialOk then (pc.port :: o, e, pc.port :: d)
    else (o, .dialErr pc.port :: e, pc.port :: d)

/-- `getOpenPorts`: a single-port template skips probing entirely;
otherwise the loop runs and the aggregated error (`multierr.Combine`,
which is nil for an empty error list) is returned exactly when no port is
open. Also returns the ports dialed for observability. -/
def getOpenPorts (ports : List PortCheck) :
    (List Chars × Option (List PortErr)) × List Chars :=
  if ports.length = 1 then ((ports.map PortCheck.port, none), [])
  else
    let (opened, errs, dialed) := getOpenPortsLoop ports
    if opened.isEmpty then (([], if errs.isEmpty then none else some errs), dialed)
    else ((opened, none), dialed)

/-- What `ExecuteWithResults` observably does with the `getOpenPorts`
result: abort returning the error when no port came back, else continue
with the returned ports, logging only when the error was non-nil. -/
structure PortScanOutcome where
  abortedWith : Option (Option (List PortErr))
  continuedWith : List Chars
  loggedPartialFailure : Bool
  dialed : List Chars
deriving DecidableEq

/-- The port-handling prefix of `ExecuteWithResults`. -/
def executeWithResultsPorts (ports : List PortCheck) : PortScanOutcome :=
  let ((opened, err), dialed) := getOpenPorts ports
  if opened.isEmpty then ⟨some err, [], false, dialed⟩
  else ⟨none, opened, err.isSome, dialed⟩

/-! ## HTTP request building (`src/v2/pkg/protocols/http/build_request.go`) -/

/-- The parts of a `urlutil.URL` this development needs. -/
structure HttpURL where
  scheme : Chars
  host : Chars
  port : Chars
  path : Chars
deriving DecidableEq

/-- The string rendering of the URL (`parsed.String()`). -/
def urlString (u : HttpURL) : Chars :=
  u.scheme ++ "://".data ++ u.host ++ (if u.port.isEmpty then [] else ':' :: u.port) ++ u.path

/-- The literal `\x7b\x7bBaseURL\x7d\x7d`. -/
def baseURLToken : Chars := "\x7b\x7bBaseURL\x7d\x7d".data

/-- The first match of the regex `\x7b\x7bBaseURL\x7d\x7d:(\d+)`
(`urlWithPortRegex.FindAllStringSubmatch(data, -1)[0][1]`): the maximal
digit run following the first occurrence of the token followed by a colon
and at least one digit. -/
def findPortToken : Chars → Option Chars
  | [] => none
  | c :: rest =>
    if begins (baseURLToken ++ [':']) (c :: rest) then
      let digits := ((c :: rest).drop (baseURLToken.length + 1)).takeWhile Char.isDigit
      if digits.isEmpty then findPortToken rest else some digits
    else findPortToken rest

/-- `strings.Replace(cs, sub, "", 1)` for non-empty `sub`: remove the
first occurrence of `sub`. -/
def removeFirstSub (sub : Chars) : Chars → Chars
  | [] => []
  | c :: rest =>
    if begins sub (c :: rest) then (c :: rest).drop sub.length
    else c :: removeFirstSub sub rest

/-- `UsePortFromPayload`: when the template holds a `BaseURL:port` token,
override the parsed URL's port with the first match's digits
(`parsed.UpdatePort`) and delete the first occurrence of `":" + port`
from the template string. -/
def UsePortFromPayload (parsed : HttpURL) (data : Chars) : HttpURL × Chars :=
  match findPortToken data with
  | some digits => ({ parsed with port := digits }, removeFirstSub (':' :: digits) data)
  | none => (parsed, data)

/-- The scan of `strings.Replace(cs, sub, repl, -1)` with an explicit
fuel (every step consumes at least one character, so `cs.length` fuel is
always enough). -/
def replaceAllSubAux (sub repl : Chars) : Nat → Chars → Chars
  | 0, cs => cs
  | _ + 1, [] => []
  | fuel + 1, c :: rest =>
    if sub ≠ [] ∧ begins sub (c :: rest) = true then
      repl ++ replaceAllSubAux sub repl fuel ((c :: rest).drop sub.length)
    else c :: replaceAllSubAux sub repl fuel rest

/-- `strings.Replace(cs, sub, repl, -1)` for non-empty `sub`: replace
every (non-overlapping, leftmost-first) occurrence. -/
def replaceAllSub (sub repl cs : Chars) : Chars :=
  replaceAllSubAux sub repl cs.length cs

/-- Modelled from the spec: the placeholder substitution of
`\x7b\x7bBaseURL\x7d\x7d` by the input URL string
(`utils.GenerateVariablesWithURL` and `replacer.Replace` live outside
`src/`); the BaseURL variable is the parsed input URL rendered with its
(possibly overridden) port. -/
def substituteBaseURL (u : HttpURL) (data : Chars) : Chars :=
  replaceAllSub baseURLToken (urlString u) data

/-- The `Make` fragment the claim cites: pre-extract the port token, then
substitute `BaseURL`. -/
def makeWithPortOverride (parsed : HttpURL) (data : Chars) : Chars :=
  let ud := UsePortFromPayload parsed data
  substituteBaseURL ud.1 ud.2

/-! ## Concrete instances used by witnesses and counterexamples -/

/-- Regex `^target$` as a matcher. -/
def c3Pattern1 : RePattern := ⟨fun s => s = "target".data⟩

/-- Regex `^tar` as a matcher. -/
def c3Pattern2 : RePattern := ⟨fun s => begins "tar".data s⟩

/-- A compile function agreeing with `regexp.Compile` on the two demo
patterns. -/
def c3Compile : Chars → Option RePattern := fun d =>
  if d = "^target$".data then some c3Pattern1
  else if d = "^tar".data then some c3Pattern2
  else none

/-- Two secrets whose patterns both match the address `target`. -/
def c3Secrets : List Secret :=
  [⟨[], ["^target$".data], ⟨1⟩, true⟩, ⟨[], ["^tar".data], ⟨2⟩, true⟩]

/-- An iteration order of the compiled-pattern map putting the
later-declared pattern first. -/
def c3PatIterSwapped : List (RePattern × AuthStrategy) :=
  [(c3Pattern2, ⟨2⟩), (c3Pattern1, ⟨1⟩)]

/-- A compile function with no successful compilations. -/
def authNoPattern : Chars → Option RePattern := fun _ => none

/-- A valid secret (one exact domain). -/
def c9GoodSecret : Secret := ⟨["a".data], [], ⟨0⟩, true⟩

/-- An invalid secret (no domains and no patterns). -/
def c9BadSecret : Secret := ⟨[], [], ⟨0⟩, true⟩

/-- One secret declaring a compilable pattern and a malformed one. -/
def c10Secret : Secret := ⟨[], ["good".data, "bad(".data], ⟨3⟩, true⟩

/-- A compile function failing exactly on the malformed pattern. -/
def c10Compile : Chars → Option RePattern := fun d =>
  if d = "good".data then some ⟨fun s => s = "good".data⟩ else none

/-- A domains map for the C8 witness. -/
def c8Domains : List (Chars × AuthStrategy) := [("api.example.com".data, ⟨5⟩)]

/-- The identity evaluator: `EvaluateByte` on text holding no helper
expressions and no known variables returns it unchanged. -/
def idEval : Chars → VarMap → Except Unit Chars := fun d _ => .ok d

/-- An extractor producing nothing (`CompiledOperators` nil). -/
def noExtract : Chars → Chars → VarMap := fun _ _ => []

/-- Environment for concrete network runs. -/
def demoEnv : ExecEnv := ⟨idEval, fun d => .ok d, noExtract⟩

/-- A network input that evaluates cleanly. -/
def c1GoodInput : NetInput := ⟨"hello".data, 0, [], false⟩

/-- A network input whose text keeps an unresolved placeholder. -/
def c1BadInput : NetInput := ⟨"\x7b\x7bx\x7d\x7d".data, 0, [], false⟩

/-- The empty initial state of `executeRequestWithPayloads` with empty
variable maps. -/
def emptyExecState : ExecState := ⟨[], [], [], [], [], [], []⟩

/-- A capture input reading two bytes into the name `cap`. -/
def c7CaptureInput : NetInput := ⟨"a".data, 2, "cap".data, false⟩

/-- A later input of the same request. -/
def c7LaterInput : NetInput := ⟨"b".data, 0, [], false⟩

/-- The scripted connection reads for the capture run: one delivery of
`XY`. -/
def c7Script : List ReadOutcome := [⟨"XY".data, none⟩]

/-- The error (if any) the `getOpenPorts` loop collects for one port. -/
def portErrOf (pc : PortCheck) : Option PortErr :=
  if pc.useNetworkPortOk = false then some (.networkPortErr pc.port)
  else if pc.getAddressOk = false then some (.addressErr pc.port)
  else if pc.dialOk then none
  else some (.dialErr pc.port)

/-- Two template ports, the second of which refuses the TCP connect. -/
def c4Ports : List PortCheck :=
  [⟨"80".data, true, true, true⟩, ⟨"81".data, true, true, false⟩]

/-- A clean single `conn.Read` delivering one byte when two were asked. -/
def c5ShortRead : ReadOutcome := ⟨"a".data, none⟩

/-- The input URL `http://host.example` of the spec's example. -/
def c6InputURL : HttpURL := ⟨"http".data, "host.example".data, [], []⟩

/-- The template of the spec's example. -/
def c6Template : Chars := "\x7b\x7bBaseURL\x7d\x7d:8080/admin".data

/-- A template containing the port token and an earlier `:8080`
occurrence. -/
def c6TrickyTemplate : Chars := ":8080\x7b\x7bBaseURL\x7d\x7d:8080/admin".data

/-! ## Lemmas about the map model -/

theorem lookupEntry_setEntry {α : Type} (m : List (Chars × α)) (k1 k : Chars)
    (v : α) :
    lookupEntry (setEntry m k1 v) k = if k1 = k then some v else lookupEntry m k := by
  induction m with
  | nil => by_cases h : k1 = k <;> simp [setEntry, lookupEntry, h]
  | cons kv rest ih =>
    obtain ⟨k0, v0⟩ := kv
    by_cases h0 : k0 = k1
    · subst h0
      by_cases hk : k0 = k <;> simp [setEntry, lookupEntry, hk]
    · by_cases hk : k0 = k
      · subst hk
        have h1 : ¬k1 = k0 := fun h => h0 h.symm
        simp [setEntry, lookupEntry, h0, h1]
      · simp [setEntry, lookupEntry, h0, hk, ih]

theorem lookupEntry_setEntry_self {α : Type} (m : List (Chars × α))
    (k : Chars) (v : α) : lookupEntry (setEntry m k v) k = some v := by
  simp [lookupEntry_setEntry]

theorem lookupEntry_setEntry_ne {α : Type} (m : List (Chars × α))
    (k1 k : Chars) (v : α) (h : k1 ≠ k) :
    lookupEntry (setEntry m k1 v) k = lookupEntry m k := by
  simp [lookupEntry_setEntry, h]

theorem mem_keys_setEntry {α : Type} (m : List (Chars × α)) (k a : Chars)
    (v : α) (h : a ∈ (setEntry m k v).map Prod.fst) :
    a = k ∨ a ∈ m.map Prod.fst := by
  induction m with
  | nil => simpa [setEntry] using h
  | cons kv rest ih =>
    obtain ⟨k0, v0⟩ := kv
    by_cases h0 : k0 = k
    · simp only [setEntry, h0, if_pos, List.map_cons, List.mem_cons] at h
      rcases h with h | h
      · exact Or.inl h
      · exact Or.inr (List.mem_cons_of_mem _ h)
    · simp only [setEntry, h0, List.map_cons, List.mem_cons, ite_false] at h
      rcases h with h | h
      · refine Or.inr ?_
        rw [List.map_cons, h]
        exact List.mem_cons_self _ _
      · rcases ih h with h1 | h1
        · exact Or.inl h1
        · exact Or.inr (List.mem_cons_of_mem _ h1)

theorem keysNodup_setEntry {α : Type} (m : List (Chars × α)) (k : Chars)
    (v : α) (h : keysNodup m) : keysNodup (setEntry m k v) := by
  induction m with
  | nil =>
    unfold keysNodup
    simp [setEntry]
  | cons kv rest ih =>
    obtain ⟨k0, v0⟩ := kv
    unfold keysNodup at h
    simp only [List.map_cons, List.nodup_cons] at h
    by_cases h0 : k0 = k
    · subst h0
      unfold keysNodup
      simp only [setEntry, if_pos, List.map_cons, List.nodup_cons]
      exact h
    · unfold keysNodup
      simp only [setEntry, h0, List.map_cons, List.nodup_cons, ite_false]
      refine ⟨fun hmem => ?_, ih h.2⟩
      rcases mem_keys_setEntry rest k k0 v hmem with h1 | h1
      · exact h0 h1
      · exact h.1 h1

theorem lookupEntry_eq_none_of_not_mem_keys {α : Type} (m : List (Chars × α))
    (k : Chars) (h : k ∉ m.map Prod.fst) : lookupEntry m k = none := by
  induction m with
  | nil => rfl
  | cons kv rest ih =>
    obtain ⟨k0, v0⟩ := kv
    simp only [List.map_cons, List.mem_cons] at h
    push_neg at h
    have h0 : ¬k0 = k := fun he => h.1 he.symm
    simp [lookupEntry, h0, ih h.2]

theorem lookupLast_eq_lookupEntry {α : Type} (m : List (Chars × α))
    (k : Chars) (h : keysNodup m) : lookupLast m k = lookupEntry m k := by
  induction m with
  | nil => rfl
  | cons kv rest ih =>
    obtain ⟨k0, v0⟩ := kv
    unfold keysNodup at h
    simp only [List.map_cons, List.nodup_cons] at h
    have hrest := ih h.2
    by_cases hk : k0 = k
    · subst hk
      have hnone : lookupEntry rest k0 = none :=
        lookupEntry_eq_none_of_not_mem_keys rest k0 h.1
      simp [lookupLast, lookupEntry, hrest, hnone]
    · simp only [lookupLast, lookupEntry, hk, hrest, ite_false]
      cases lookupEntry rest k <;> simp

theorem lookupEntry_foldSet {α : Type} (l m : List (Chars × α)) (k : Chars) :
    lookupEntry (foldSet m l) k =
      match lookupLast l k with
      | some v => some v
      | none => lookupEntry m k := by
  induction l generalizing m with
  | nil => simp [foldSet, lookupLast]
  | cons kv rest ih =>
    obtain ⟨k0, v0⟩ := kv
    have : foldSet m ((k0, v0) :: rest) = foldSet (setEntry m k0 v0) rest := rfl
    rw [this, ih]
    cases hlast : lookupLast rest k with
    | some v => simp [lookupLast, hlast]
    | none =>
      by_cases hk : k0 = k
      · subst hk
        simp [lookupLast, hlast, lookupEntry_setEntry_self]
      · simp [lookupLast, hlast, hk, lookupEntry_setEntry_ne m k0 k v0 hk]

theorem keysNodup_foldSet {α : Type} (l m : List (Chars × α))
    (h : keysNodup m) : keysNodup (foldSet m l) := by
  induction l generalizing m with
  | nil => exact h
  | cons kv rest ih =>
    exact ih (setEntry m kv.1 kv.2) (keysNodup_setEntry m kv.1 kv.2 h)

/-! ## Lemmas about the auth provider -/

theorem foldl_append_join {β γ : Type} (f : β → List γ) (l : List β) :
    ∀ init : List γ, l.foldl (fun acc s => acc ++ f s) init = init ++ (l.map f).flatten := by
  induction l with
  | nil => intro init; simp
  | cons b t ih =>
    intro init
    rw [List.map_cons, List.flatten_cons, List.foldl_cons, ih (init ++ f b),
      List.append_assoc]

theorem initCompiled_eq (compile : Chars → Option RePattern) (secrets : List Secret) :
    initCompiled compile secrets =
      (secrets.map fun s =>
        s.domainsRegex.filterMap fun d => (compile d).map fun p => (p, s.strategy)).flatten := by
  unfold initCompiled
  rw [foldl_append_join _ secrets []]
  rfl

theorem mem_initCompiled {compile : Chars → Option RePattern} {secrets : List Secret}
    {e : RePattern × AuthStrategy} (he : e ∈ initCompiled compile secrets) :
    ∃ s ∈ secrets, ∃ d ∈ s.domainsRegex, compile d = some e.1 ∧ e.2 = s.strategy := by
  rw [initCompiled_eq, List.mem_flatten] at he
  obtain ⟨l, hl, hel⟩ := he
  rw [List.mem_map] at hl
  obtain ⟨s, hs, rfl⟩ := hl
  rw [List.mem_filterMap] at hel
  obtain ⟨d, hd, hde⟩ := hel
  rw [Option.map_eq_some'] at hde
  obtain ⟨p, hp, hpe⟩ := hde
  refine ⟨s, hs, d, hd, ?_, ?_⟩
  · rw [hp, ← hpe]
  · rw [← hpe]

theorem newFileAuthProvider_ok (compile : Chars → Option RePattern)
    (secrets : List Secret) (hne : secrets ≠ [])
    (hval : ∀ s ∈ secrets, s.validate = true) :
    newFileAuthProvider compile secrets = .ok (mkFileAuthProvider compile secrets) := by
  have h1 : secrets.isEmpty = false := by
    cases secrets with
    | nil => exact absurd rfl hne
    | cons a l => rfl
  have h2 : secrets.all (fun s => s.validate) = true := List.all_eq_true.mpr hval
  simp [newFileAuthProvider, h1, h2]

theorem takeWhile_append_stop (p : Char → Bool) (xs ys : Chars) (y : Char)
    (hx : ∀ x ∈ xs, p x = true) (hy : p y = false) :
    (xs ++ y :: ys).takeWhile p = xs := by
  induction xs with
  | nil => simp [List.takeWhile_cons, hy]
  | cons a l ih =>
    have ha : p a = true := hx a (List.mem_cons_self a l)
    simp [List.takeWhile_cons, ha, ih fun x hx2 => hx x (List.mem_cons_of_mem a hx2)]

theorem dropWhile_append_stop (p : Char → Bool) (xs ys : Chars) (y : Char)
    (hx : ∀ x ∈ xs, p x = true) (hy : p y = false) :
    (xs ++ y :: ys).dropWhile p = y :: ys := by
  induction xs with
  | nil => simp [List.dropWhile_cons, hy]
  | cons a l ih =>
    have ha : p a = true := hx a (List.mem_cons_self a l)
    simp [List.dropWhile_cons, ha, ih fun x hx2 => hx x (List.mem_cons_of_mem a hx2)]

theorem not_mem_of_hasChar_false {cs : Chars} {c : Char}
    (h : hasChar cs c = false) : ∀ x ∈ cs, ¬x = c := by
  induction cs with
  | nil => intro x hx; cases hx
  | cons a l ih =>
    unfold hasChar at h
    rw [List.any_cons] at h
    rw [Bool.or_eq_false_iff] at h
    intro x hx
    rcases List.mem_cons.mp hx with rfl | hx2
    · simpa using h.1
    · exact ih h.2 x hx2

theorem countChar_eq_zero {cs : Chars} {c : Char} (h : hasChar cs c = false) :
    countChar cs c = 0 := by
  unfold countChar
  rw [List.countP_eq_zero]
  intro a ha
  simpa using not_mem_of_hasChar_false h a ha

theorem splitHostPort_hostport (host port : Chars)
    (hh : hasChar host ':' = false) (hpc : hasChar port ':' = false)
    (hb1 : hasChar host '[' = false) (hb2 : hasChar host ']' = false)
    (hb3 : hasChar port '[' = false) (hb4 : hasChar port ']' = false) :
    splitHostPort (host ++ ':' :: port) = some (host, port) := by
  have hcount : countChar (host ++ ':' :: port) ':' = 1 := by
    unfold countChar
    rw [List.countP_append]
    have h0 : countChar host ':' = 0 := countChar_eq_zero hh
    unfold countChar at h0
    rw [h0, List.countP_cons_of_pos _ _ (by simp)]
    have h1 : countChar port ':' = 0 := countChar_eq_zero hpc
    unfold countChar at h1
    rw [h1]
  have hlb : hasChar (host ++ ':' :: port) '[' = false := by
    unfold hasChar
    rw [List.any_append, List.any_cons]
    unfold hasChar at hb1 hb3
    rw [hb1, hb3]
    simp
  have hrb : hasChar (host ++ ':' :: port) ']' = false := by
    unfold hasChar
    rw [List.any_append, List.any_cons]
    unfold hasChar at hb2 hb4
    rw [hb2, hb4]
    simp
  unfold splitHostPort
  rw [if_pos ⟨hcount, hlb, hrb⟩]
  have htake : (host ++ ':' :: port).takeWhile (fun c => c ≠ ':') = host := by
    apply takeWhile_append_stop
    · intro x hx
      simpa using not_mem_of_hasChar_false hh x hx
    · simp
  have hdrop : (host ++ ':' :: port).dropWhile (fun c => c ≠ ':') = ':' :: port := by
    apply dropWhile_append_stop
    · intro x hx
      simpa using not_mem_of_hasChar_false hh x hx
    · simp
  rw [htake, hdrop]
  rfl

theorem normalizeAuthAddr_hostport (host port : Chars)
    (hh : hasChar host ':' = false) (hb1 : hasChar host '[' = false)
    (hb2 : hasChar host ']' = false)
    (hp : port = "80".data ∨ port = "443".data) :
    normalizeAuthAddr (host ++ ':' :: port) = host := by
  have hcolon : hasChar (host ++ ':' :: port) ':' = true := by
    unfold hasChar
    rw [List.any_append, List.any_cons]
    simp
  have hsplit : splitHostPort (host ++ ':' :: port) = some (host, port) := by
    rcases hp with rfl | rfl <;>
      exact splitHostPort_hostport host _ hh (by decide) hb1 hb2 (by decide) (by decide)
  unfold normalizeAuthAddr
  rw [hcolon, hsplit]
  simp [hp]

theorem normalizeAuthAddr_nocolon (host : Chars)
    (hh : hasChar host ':' = false) : normalizeAuthAddr host = host := by
  unfold normalizeAuthAddr
  rw [hh]
  simp

/-! ## C8 -/

/-- C8: for an address `host:port` with port 80 or 443 the auth lookup
strips the port and matches on the bare host, so the lookup of
`host:port` agrees with the lookup of `host`; an address matched by no
exact domain and no compiled pattern yields no strategy. -/
theorem claim_C8_default_port_stripped (domIter : List (Chars × AuthStrategy))
    (patIter : List (RePattern × AuthStrategy)) (host port : Chars)
    (hh : hasChar host ':' = false) (hb1 : hasChar host '[' = false)
    (hb2 : hasChar host ']' = false)
    (hp : port = "80".data ∨ port = "443".data) :
    lookupAddr domIter patIter (host ++ ':' :: port) = lookupAddr domIter patIter host ∧
    ((∀ kv ∈ domIter, eqFold kv.1 host = false) →
      (∀ e ∈ patIter, e.1.matchString host = false) →
      lookupAddr domIter patIter (host ++ ':' :: port) = none) := by
  have hn1 : normalizeAuthAddr (host ++ ':' :: port) = host :=
    normalizeAuthAddr_hostport host port hh hb1 hb2 hp
  have hn2 : normalizeAuthAddr host = host := normalizeAuthAddr_nocolon host hh
  constructor
  · unfold lookupAddr
    rw [hn1, hn2]
  · intro hdom hpat
    have hfd : domIter.find? (fun kv => eqFold kv.1 host) = none := by
      rw [List.find?_eq_none]
      intro kv hkv
      rw [hdom kv hkv]
      simp
    have hfp : patIter.find? (fun kv => kv.1.matchString host) = none := by
      rw [List.find?_eq_none]
      intro e he
      rw [hpat e he]
      simp
    simp only [lookupAddr]
    rw [hn1, hfd, hfp]
    rfl

/-- C8 witness: the spec's example, a secret for `api.example.com` with
strategy 5; the lookup of `api.example.com:443` equals the lookup of the
bare host (which hits), and `other.example.com` returns nil. -/
theorem claim_C8_default_port_stripped_witness :
    lookupAddr c8Domains [] ("api.example.com".data ++ ':' :: "443".data) =
      lookupAddr c8Domains [] "api.example.com".data ∧
    lookupAddr c8Domains [] "api.example.com".data = some ⟨5⟩ ∧
    lookupAddr c8Domains [] "other.example.com".data = none := by
  refine ⟨(claim_C8_default_port_stripped c8Domains [] ("api.example.com".data)
    ("443".data) (by decide) (by decide) (by decide) (Or.inr rfl)).1, rfl, rfl⟩

/-! ## C9 -/

/-- C9: `NewFileAuthProvider` fails with the dedicated no-secrets error on
an empty store, fails with the validation error when some secret is
invalid, and returns the initialized provider exactly when the store is
non-empty and every secret validates. -/
theorem claim_C9_provider_validation (compile : Chars → Option RePattern)
    (secrets : List Secret) :
    (secrets = [] → newFileAuthProvider compile secrets = .error .noSecrets) ∧
    ((∃ s ∈ secrets, s.validate = false) →
      newFileAuthProvider compile secrets = .error .invalidSecret) ∧
    (secrets ≠ [] → (∀ s ∈ secrets, s.validate = true) →
      newFileAuthProvider compile secrets = .ok (mkFileAuthProvider compile secrets)) := by
  refine ⟨?_, ?_, newFileAuthProvider_ok compile secrets⟩
  · rintro rfl
    rfl
  · rintro ⟨s, hs, hsv⟩
    have h1 : secrets.isEmpty = false := by
      cases secrets with
      | nil => cases hs
      | cons a l => rfl
    have h2 : secrets.all (fun s => s.validate) = false := by
      rw [Bool.eq_false_iff]
      intro hall
      rw [List.all_eq_true] at hall
      have hv := hall s hs
      rw [hsv] at hv
      cases hv
    simp [newFileAuthProvider, h1, h2]

/-- C9 witness: the three branches at concrete stores. -/
theorem claim_C9_provider_validation_witness :
    newFileAuthProvider authNoPattern [] = .error .noSecrets ∧
    newFileAuthProvider authNoPattern [c9BadSecret] = .error .invalidSecret ∧
    newFileAuthProvider authNoPattern [c9GoodSecret] =
      .ok (mkFileAuthProvider authNoPattern [c9GoodSecret]) :=
  ⟨(claim_C9_provider_validation authNoPattern []).1 rfl,
    (claim_C9_provider_validation authNoPattern [c9BadSecret]).2.1
      ⟨c9BadSecret, List.mem_singleton.mpr rfl, rfl⟩,
    (claim_C9_provider_validation authNoPattern [c9GoodSecret]).2.2
      (List.cons_ne_nil _ _)
      (by
        intro s hs
        rw [List.mem_singleton.mp hs]
        rfl)⟩

/-! ## C10 -/

/-- C10: a `DomainsRegex` entry that fails to compile is silently dropped:
construction still succeeds for an otherwise valid store, and every entry
of the compiled-pattern map stems from a successfully compiled pattern —
never from the failing one — so no lookup can match through it. -/
theorem claim_C10_failed_pattern_dropped (compile : Chars → Option RePattern)
    (secrets : List Secret) (p : Chars)
    (hp : ∃ s ∈ secrets, p ∈ s.domainsRegex) (hfail : compile p = none)
    (hne : secrets ≠ []) (hval : ∀ s ∈ secrets, s.validate = true) :
    newFileAuthProvider compile secrets = .ok (mkFileAuthProvider compile secrets) ∧
    (∀ e ∈ (mkFileAuthProvider compile secrets).compiled,
      ∃ s ∈ secrets, ∃ d ∈ s.domainsRegex, compile d = some e.1 ∧ e.2 = s.strategy) ∧
    (∀ e ∈ (mkFileAuthProvider compile secrets).compiled,
      ∀ d : Chars, compile d = some e.1 → d ≠ p) := by
  refine ⟨newFileAuthProvider_ok compile secrets hne hval, ?_, ?_⟩
  · intro e he
    exact mem_initCompiled he
  · intro e he d hd hdp
    rw [hdp, hfail] at hd
    cases hd

/-- C10 witness: one secret declaring a good and a malformed pattern; the
provider is built, and its single compiled entry stems from the good
pattern. -/
theorem claim_C10_failed_pattern_dropped_witness :
    (∃ s ∈ [c10Secret], "bad(".data ∈ s.domainsRegex) ∧
    c10Compile "bad(".data = none ∧
    newFileAuthProvider c10Compile [c10Secret] =
      .ok (mkFileAuthProvider c10Compile [c10Secret]) ∧
    (∀ e ∈ (mkFileAuthProvider c10Compile [c10Secret]).compiled,
      ∃ s ∈ [c10Secret], ∃ d ∈ s.domainsRegex,
        c10Compile d = some e.1 ∧ e.2 = s.strategy) := by
  have hp : ∃ s ∈ [c10Secret], "bad(".data ∈ s.domainsRegex :=
    ⟨c10Secret, List.mem_singleton.mpr rfl, by
      show "bad(".data ∈ ["good".data, "bad(".data]
      simp⟩
  have hmain := claim_C10_failed_pattern_dropped c10Compile [c10Secret]
    ("bad(".data) hp rfl (List.cons_ne_nil _ _)
    (by
      intro s hs
      rw [List.mem_singleton.mp hs]
      rfl)
  exact ⟨hp, rfl, hmain.1, hmain.2.1⟩

/-! ## C3 -/

/-- C3 counterexample: the compiled patterns live in a Go map, whose
iteration order is unspecified; with both demo patterns matching the
address `target`, the iteration order putting the later-declared pattern
first (a permutation of the built entry list) returns the later secret's
strategy, not the earlier-declared one. -/
theorem claim_C3_pattern_order_counterexample :
    c3PatIterSwapped.Perm (initCompiled c3Compile c3Secrets) ∧
    lookupAddr [] c3PatIterSwapped "target".data = some ⟨2⟩ ∧
    lookupAddr [] (initCompiled c3Compile c3Secrets) "target".data = some ⟨1⟩ ∧
    (⟨2⟩ : AuthStrategy) ≠ ⟨1⟩ := by
  refine ⟨?_, rfl, rfl, by decide⟩
  have h : initCompiled c3Compile c3Secrets = [(c3Pattern1, ⟨1⟩), (c3Pattern2, ⟨2⟩)] := rfl
  rw [h]
  exact List.Perm.swap _ _ _

/-- C3 amended: `LookupAddr` scans the exact-domain map first and only on
a miss the compiled patterns, but both scans follow the unspecified Go
map iteration order: any returned strategy belongs to a matching exact
domain when one exists, else to some matching compiled pattern (which
matching pattern wins depends on the iteration order, not on declaration
order), and the lookup is nil exactly when nothing matches. -/
theorem claim_C3_domains_before_patterns (secrets : List Secret)
    (compile : Chars → Option RePattern) (addr : Chars)
    (domIter : List (Chars × AuthStrategy))
    (patIter : List (RePattern × AuthStrategy))
    (hdom : domIter.Perm (initDomains secrets))
    (hpat : patIter.Perm (initCompiled compile secrets)) :
    (∀ st, lookupAddr domIter patIter addr = some st →
      (∃ kv ∈ initDomains secrets,
        eqFold kv.1 (normalizeAuthAddr addr) = true ∧ st = kv.2) ∨
      ((∀ kv ∈ initDomains secrets, eqFold kv.1 (normalizeAuthAddr addr) = false) ∧
        ∃ e ∈ initCompiled compile secrets,
          e.1.matchString (normalizeAuthAddr addr) = true ∧ st = e.2)) ∧
    (lookupAddr domIter patIter addr = none ↔
      ((∀ kv ∈ initDomains secrets, eqFold kv.1 (normalizeAuthAddr addr) = false) ∧
        (∀ e ∈ initCompiled compile secrets,
          e.1.matchString (normalizeAuthAddr addr) = false))) := by
  cases hfd : domIter.find? (fun kv => eqFold kv.1 (normalizeAuthAddr addr)) with
  | some kv =>
    have hres : lookupAddr domIter patIter addr = some kv.2 := by
      simp only [lookupAddr]
      rw [hfd]
    have hkv_mem := hdom.mem_iff.mp (List.mem_of_find?_eq_some hfd)
    have hkv_match : eqFold kv.1 (normalizeAuthAddr addr) = true := by
      simpa using List.find?_some hfd
    rw [hres]
    constructor
    · intro st hst
      rw [Option.some_inj] at hst
      exact Or.inl ⟨kv, hkv_mem, hkv_match, hst.symm⟩
    · constructor
      · intro h
        simp at h
      · rintro ⟨h1, _⟩
        have hm := h1 kv hkv_mem
        rw [hkv_match] at hm
        cases hm
  | none =>
    have hdomAll : ∀ kv ∈ initDomains secrets,
        eqFold kv.1 (normalizeAuthAddr addr) = false := by
      intro kv hkv
      have h := List.find?_eq_none.mp hfd kv (hdom.mem_iff.mpr hkv)
      simpa using h
    cases hfp : patIter.find? (fun kv => kv.1.matchString (normalizeAuthAddr addr)) with
    | some e =>
      have hres : lookupAddr domIter patIter addr = some e.2 := by
        simp only [lookupAddr]
        rw [hfd, hfp]
        rfl
      have he_mem := hpat.mem_iff.mp (List.mem_of_find?_eq_some hfp)
      have he_match : e.1.matchString (normalizeAuthAddr addr) = true := by
        simpa using List.find?_some hfp
      rw [hres]
      constructor
      · intro st hst
        rw [Option.some_inj] at hst
        exact Or.inr ⟨hdomAll, e, he_mem, he_match, hst.symm⟩
      · constructor
        · intro h
          simp at h
        · rintro ⟨_, h2⟩
          have hm := h2 e he_mem
          rw [he_match] at hm
          cases hm
    | none =>
      have hres : lookupAddr domIter patIter addr = none := by
        simp only [lookupAddr]
        rw [hfd, hfp]
        rfl
      have hpatAll : ∀ e ∈ initCompiled compile secrets,
          e.1.matchString (normalizeAuthAddr addr) = false := by
        intro e he
        have h := List.find?_eq_none.mp hfp e (hpat.mem_iff.mpr he)
        simpa using h
      rw [hres]
      constructor
      · intro st hst
        simp at hst
      · exact ⟨fun _ => ⟨hdomAll, hpatAll⟩, fun _ => rfl⟩

/-- C3 amended witness: with the entry lists themselves as iteration
orders, an address matching nothing yields nil. -/
theorem claim_C3_domains_before_patterns_witness :
    lookupAddr (initDomains c3Secrets) (initCompiled c3Compile c3Secrets)
        "other".data = none ↔
      ((∀ kv ∈ initDomains c3Secrets,
          eqFold kv.1 (normalizeAuthAddr "other".data) = false) ∧
        (∀ e ∈ initCompiled c3Compile c3Secrets,
          e.1.matchString (normalizeAuthAddr "other".data) = false)) :=
  (claim_C3_domains_before_patterns c3Secrets c3Compile ("other".data) _ _
    (List.Perm.refl _) (List.Perm.refl _)).2

/-! ## Lemmas about port scanning -/

theorem getOpenPortsLoop_spec (ports : List PortCheck) :
    getOpenPortsLoop ports =
      ((ports.filter fun pc => pc.useNetworkPortOk && pc.getAddressOk && pc.dialOk).map
        PortCheck.port,
       ports.filterMap portErrOf,
       (ports.filter fun pc => pc.useNetworkPortOk && pc.getAddressOk).map PortCheck.port) := by
  induction ports with
  | nil => rfl
  | cons pc rest ih =>
    cases hu : pc.useNetworkPortOk <;> cases hg : pc.getAddressOk <;> cases hd : pc.dialOk <;>
      simp [getOpenPortsLoop, ih, portErrOf, hu, hg, hd, List.filter_cons, List.filterMap_cons]

theorem getOpenPorts_single (ports : List PortCheck) (h : ports.length = 1) :
    getOpenPorts ports = ((ports.map PortCheck.port, none), []) := by
  unfold getOpenPorts
  rw [if_pos h]

theorem getOpenPorts_multi_none_open (ports : List PortCheck)
    (h : ports.length ≠ 1)
    (hopen : (ports.filter fun pc => pc.useNetworkPortOk && pc.getAddressOk && pc.dialOk) = []) :
    getOpenPorts ports =
      (([], if (ports.filterMap portErrOf).isEmpty then none
            else some (ports.filterMap portErrOf)),
       (ports.filter fun pc => pc.useNetworkPortOk && pc.getAddressOk).map PortCheck.port) := by
  unfold getOpenPorts
  rw [if_neg h, getOpenPortsLoop_spec, hopen]
  rfl

theorem getOpenPorts_multi_some_open (ports : List PortCheck)
    (h : ports.length ≠ 1)
    (hopen : (ports.filter fun pc => pc.useNetworkPortOk && pc.getAddressOk && pc.dialOk) ≠ []) :
    getOpenPorts ports =
      (((ports.filter fun pc => pc.useNetworkPortOk && pc.getAddressOk && pc.dialOk).map
          PortCheck.port, none),
       (ports.filter fun pc => pc.useNetworkPortOk && pc.getAddressOk).map PortCheck.port) := by
  unfold getOpenPorts
  rw [if_neg h, getOpenPortsLoop_spec]
  have hne : ((ports.filter fun pc =>
      pc.useNetworkPortOk && pc.getAddressOk && pc.dialOk).map PortCheck.port).isEmpty = false := by
    cases hfil : ports.filter fun pc => pc.useNetworkPortOk && pc.getAddressOk && pc.dialOk with
    | nil => exact absurd hfil hopen
    | cons a l => rfl
  simp only [hne]
  rfl

/-! ## C4 -/

/-- C4 counterexample: with two ports, one open and one closed, the
closed port's dial error is collected by the loop but `getOpenPorts`
returns a nil error alongside the open subset, so `ExecuteWithResults`
never logs the partial failure — refuting the claim that errors from
closed ports are logged. -/
theorem claim_C4_counterexample :
    (getOpenPortsLoop c4Ports).2.1 = [.dialErr "81".data] ∧
    executeWithResultsPorts c4Ports =
      ⟨none, ["80".data], false, ["80".data, "81".data]⟩ ∧
    (executeWithResultsPorts c4Ports).loggedPartialFailure = false := by
  refine ⟨rfl, rfl, rfl⟩

/-- C4 amended: a single-port template performs no probe and returns that
port; with more than one port, every port whose `UseNetworkPort` and
`getAddress` steps succeed is dialed, zero open ports abort the execution
with the aggregated error list, and at least one open port lets execution
continue with exactly the open subset while the closed ports' errors are
silently discarded (never logged, because `getOpenPorts` returns a nil
error whenever the open subset is non-empty). -/
theorem claim_C4_port_probing (ports : List PortCheck) :
    (ports.length = 1 →
      executeWithResultsPorts ports = ⟨none, ports.map PortCheck.port, false, []⟩) ∧
    (ports.length > 1 →
      ((ports.filter fun pc => pc.useNetworkPortOk && pc.getAddressOk && pc.dialOk) = [] →
        executeWithResultsPorts ports =
          ⟨some (if (ports.filterMap portErrOf).isEmpty then none
                 else some (ports.filterMap portErrOf)),
            [], false,
            (ports.filter fun pc => pc.useNetworkPortOk && pc.getAddressOk).map
              PortCheck.port⟩) ∧
      ((ports.filter fun pc => pc.useNetworkPortOk && pc.getAddressOk && pc.dialOk) ≠ [] →
        executeWithResultsPorts ports =
          ⟨none,
            (ports.filter fun pc => pc.useNetworkPortOk && pc.getAddressOk && pc.dialOk).map
              PortCheck.port,
            false,
            (ports.filter fun pc => pc.useNetworkPortOk && pc.getAddressOk).map
              PortCheck.port⟩)) := by
  constructor
  · intro h1
    cases ports with
    | nil => cases h1
    | cons pc rest =>
      cases rest with
      | nil =>
        unfold executeWithResultsPorts
        rw [getOpenPorts_single [pc] rfl]
        rfl
      | cons pc2 rest2 => simp at h1
  · intro h2
    have hne1 : ports.length ≠ 1 := by omega
    constructor
    · intro hopen
      unfold executeWithResultsPorts
      rw [getOpenPorts_multi_none_open ports hne1 hopen]
      rfl
    · intro hopen
      unfold executeWithResultsPorts
      rw [getOpenPorts_multi_some_open ports hne1 hopen]
      have hne2 : ((ports.filter fun pc =>
          pc.useNetworkPortOk && pc.getAddressOk && pc.dialOk).map
            PortCheck.port).isEmpty = false := by
        cases hfil : ports.filter fun pc =>
            pc.useNetworkPortOk && pc.getAddressOk && pc.dialOk with
        | nil => exact absurd hfil hopen
        | cons a l => rfl
      simp only [hne2]
      rfl

/-- C4 witness: both hypotheses discharged at the two-port instance with
one open port. -/
theorem claim_C4_port_probing_witness :
    c4Ports.length > 1 ∧
    (c4Ports.filter fun pc => pc.useNetworkPortOk && pc.getAddressOk && pc.dialOk) ≠ [] ∧
    executeWithResultsPorts c4Ports =
      ⟨none,
        (c4Ports.filter fun pc => pc.useNetworkPortOk && pc.getAddressOk && pc.dialOk).map
          PortCheck.port,
        false,
        (c4Ports.filter fun pc => pc.useNetworkPortOk && pc.getAddressOk).map
          PortCheck.port⟩ :=
  ⟨by decide, by decide,
    ((claim_C4_port_probing c4Ports).2 (by decide)).2 (by decide)⟩

/-! ## Lemmas about clustering -/

theorem executeOnTargetProbes_cons (resolve : Chars → Chars) (d : Bool)
    (kv : AddressKV) (rest : List AddressKV) (visited : List Chars) :
    executeOnTargetProbes resolve d (kv :: rest) visited =
      if resolve kv.address ∈ visited ∧ d = false then
        executeOnTargetProbes resolve d rest visited
      else
        ((resolve kv.address, kv.tls) ::
          (executeOnTargetProbes resolve d rest (resolve kv.address :: visited)).1,
         (executeOnTargetProbes resolve d rest (resolve kv.address :: visited)).2) := by
  by_cases h : resolve kv.address ∈ visited ∧ d = false
  · rw [if_pos h]
    show (if resolve kv.address ∈ visited ∧ d = false then
        executeOnTargetProbes resolve d rest visited
      else
        let pv := executeOnTargetProbes resolve d rest (resolve kv.address :: visited)
        ((resolve kv.address, kv.tls) :: pv.1, pv.2)) = _
    rw [if_pos h]
  · rw [if_neg h]
    show (if resolve kv.address ∈ visited ∧ d = false then
        executeOnTargetProbes resolve d rest visited
      else
        let pv := executeOnTargetProbes resolve d rest (resolve kv.address :: visited)
        ((resolve kv.address, kv.tls) :: pv.1, pv.2)) = _
    rw [if_neg h]

theorem executeAllProbes_cons (d : Bool) (addresses : List AddressKV)
    (resolve : Chars → Chars) (restPorts : List (Chars → Chars))
    (visited : List Chars) :
    executeAllProbes d addresses (resolve :: restPorts) visited =
      ((executeOnTargetProbes resolve d addresses visited).1 ++
        (executeAllProbes d addresses restPorts
          (executeOnTargetProbes resolve d addresses visited).2).1,
       (executeAllProbes d addresses restPorts
          (executeOnTargetProbes resolve d addresses visited).2).2) := by
  show (let pv := executeOnTargetProbes resolve d addresses visited
        let pv2 := executeAllProbes d addresses restPorts pv.2
        (pv.1 ++ pv2.1, pv2.2)) = _
  rfl

theorem executeOnTargetProbes_enabled_inv (resolve : Chars → Chars)
    (addresses : List AddressKV) :
    ∀ visited : List Chars,
      (((executeOnTargetProbes resolve false addresses visited).1.map Prod.fst).Nodup ∧
        (∀ a ∈ (executeOnTargetProbes resolve false addresses visited).1.map Prod.fst,
          a ∉ visited)) ∧
      (∀ a ∈ (executeOnTargetProbes resolve false addresses visited).1.map Prod.fst,
        a ∈ (executeOnTargetProbes resolve false addresses visited).2) ∧
      (∀ a ∈ visited, a ∈ (executeOnTargetProbes resolve false addresses visited).2) := by
  induction addresses with
  | nil =>
    intro visited
    refine ⟨⟨List.nodup_nil, ?_⟩, ?_, ?_⟩ <;> simp [executeOnTargetProbes]
  | cons kv rest ih =>
    intro visited
    by_cases hmem : resolve kv.address ∈ visited
    · have hskip : executeOnTargetProbes resolve false (kv :: rest) visited =
          executeOnTargetProbes resolve false rest visited := by
        rw [executeOnTargetProbes_cons, if_pos ⟨hmem, rfl⟩]
      rw [hskip]
      exact ih visited
    · have hstep : executeOnTargetProbes resolve false (kv :: rest) visited =
          ((resolve kv.address, kv.tls) ::
            (executeOnTargetProbes resolve false rest (resolve kv.address :: visited)).1,
           (executeOnTargetProbes resolve false rest (resolve kv.address :: visited)).2) := by
        rw [executeOnTargetProbes_cons, if_neg (fun hc => hmem hc.1)]
      rw [hstep]
      obtain ⟨⟨hnodup, hdisj⟩, hsub, hvis⟩ := ih (resolve kv.address :: visited)
      refine ⟨⟨?_, ?_⟩, ?_, ?_⟩
      · simp only [List.map_cons, List.nodup_cons]
        refine ⟨fun hc => ?_, hnodup⟩
        exact hdisj _ hc (List.mem_cons_self _ _)
      · intro a ha
        simp only [List.map_cons, List.mem_cons] at ha
        rcases ha with rfl | ha
        · exact hmem
        · intro hav
          exact hdisj a ha (List.mem_cons_of_mem _ hav)
      · intro a ha
        simp only [List.map_cons, List.mem_cons] at ha
        rcases ha with rfl | ha
        · exact hvis _ (List.mem_cons_self _ _)
        · exact hsub a ha
      · intro a ha
        exact hvis a (List.mem_cons_of_mem _ ha)

theorem executeAllProbes_enabled_inv (addresses : List AddressKV) :
    ∀ (resolvers : List (Chars → Chars)) (visited : List Chars),
      (((executeAllProbes false addresses resolvers visited).1.map Prod.fst).Nodup ∧
        (∀ a ∈ (executeAllProbes false addresses resolvers visited).1.map Prod.fst,
          a ∉ visited)) ∧
      (∀ a ∈ (executeAllProbes false addresses resolvers visited).1.map Prod.fst,
        a ∈ (executeAllProbes false addresses resolvers visited).2) ∧
      (∀ a ∈ visited, a ∈ (executeAllProbes false addresses resolvers visited).2) := by
  intro resolvers
  induction resolvers with
  | nil =>
    intro visited
    refine ⟨⟨List.nodup_nil, ?_⟩, ?_, ?_⟩ <;> simp [executeAllProbes]
  | cons resolve restPorts ih =>
    intro visited
    have hstep : executeAllProbes false addresses (resolve :: restPorts) visited =
        ((executeOnTargetProbes resolve false addresses visited).1 ++
          (executeAllProbes false addresses restPorts
            (executeOnTargetProbes resolve false addresses visited).2).1,
         (executeAllProbes false addresses restPorts
            (executeOnTargetProbes resolve false addresses visited).2).2) :=
      executeAllProbes_cons false addresses resolve restPorts visited
    rw [hstep]
    obtain ⟨⟨hnd1, hdj1⟩, hsub1, hvis1⟩ := executeOnTargetProbes_enabled_inv resolve addresses visited
    obtain ⟨⟨hnd2, hdj2⟩, hsub2, hvis2⟩ :=
      ih (executeOnTargetProbes resolve false addresses visited).2
    refine ⟨⟨?_, ?_⟩, ?_, ?_⟩
    · rw [List.map_append, List.nodup_append]
      refine ⟨hnd1, hnd2, ?_⟩
      intro a ha1 ha2
      exact hdj2 a ha2 (hsub1 a ha1)
    · intro a ha
      rw [List.map_append, List.mem_append] at ha
      rcases ha with ha | ha
      · exact hdj1 a ha
      · intro hav
        exact hdj2 a ha (hvis1 a hav)
    · intro a ha
      rw [List.map_append, List.mem_append] at ha
      rcases ha with ha | ha
      · exact hvis2 _ (hsub1 a ha)
      · exact hsub2 a ha
    · intro a ha
      exact hvis2 a (hvis1 a ha)

/-! ## C2 -/

/-- C2: with clustering enabled, the visited set shared across the whole
execution guarantees that no resolved address — hence no (host, port, tls)
triple, two entries differing only in the TLS flag resolving to the same
address string — is probed twice: the probed addresses over all ports of
one execution are pairwise distinct; with clustering disabled every
declared address entry is probed, in order. -/
theorem claim_C2_clustering_dedupe (addresses : List AddressKV)
    (resolvers : List (Chars → Chars)) :
    ((executeAllProbes false addresses resolvers []).1.map Prod.fst).Nodup ∧
    ∀ (resolve : Chars → Chars) (visited : List Chars),
      (executeOnTargetProbes resolve true addresses visited).1 =
        addresses.map fun kv => (resolve kv.address, kv.tls) := by
  constructor
  · exact (executeAllProbes_enabled_inv addresses resolvers []).1.1
  · intro resolve
    induction addresses with
    | nil => intro visited; rfl
    | cons kv rest ih =>
      intro visited
      have hstep2 : executeOnTargetProbes resolve true (kv :: rest) visited =
          ((resolve kv.address, kv.tls) ::
            (executeOnTargetProbes resolve true rest (resolve kv.address :: visited)).1,
           (executeOnTargetProbes resolve true rest (resolve kv.address :: visited)).2) := by
        rw [executeOnTargetProbes_cons, if_neg (fun hc => Bool.noConfusion hc.2)]
      rw [hstep2, List.map_cons]
      rw [ih (resolve kv.address :: visited)]

/-! ## C5 -/

/-- C5 counterexample: a clean single `conn.Read` may deliver fewer than
the requested bytes; `ConnReadNWithTimeout` then returns that short
buffer with a nil error, refuting the claim that exactly `k` bytes are
returned. -/
theorem claim_C5_counterexample :
    c5ShortRead.bytes.length ≤ readBufSize 2 ∧
    ConnReadNWithTimeout 2 (.ok []) c5ShortRead = .ok "a".data ∧
    ("a".data).length ≠ 2 := by
  refine ⟨by decide, rfl, by decide⟩

/-- C5 amended: for a requested size `k > 0` the function performs a
single `conn.Read` and returns exactly the bytes that one `Read`
delivered — at most `k`, not necessarily `k` — and a read deadline
elapsing with a nonzero partial buffer returns that buffer together with
a nil error, as does a clean read. -/
theorem claim_C5_single_read (n : Int) (readAllResult : Except NetErr Chars)
    (o : ReadOutcome) (hn : 0 < n) (hb : o.bytes.length ≤ readBufSize n) :
    (∀ b, ConnReadNWithTimeout n readAllResult o = .ok b →
      b = o.bytes ∧ b.length ≤ n.toNat) ∧
    (o.err = some .timeout → o.bytes ≠ [] →
      ConnReadNWithTimeout n readAllResult o = .ok o.bytes) ∧
    (o.err = none → ConnReadNWithTimeout n readAllResult o = .ok o.bytes) := by
  have hne : n ≠ -1 := by omega
  have hn0 : n ≠ 0 := by omega
  unfold readBufSize at hb
  rw [if_neg hn0] at hb
  unfold ConnReadNWithTimeout
  rw [if_neg hne]
  refine ⟨?_, ?_, ?_⟩
  · intro b hbb
    unfold connReadSingle at hbb
    cases ho : o.err with
    | some e =>
      rw [ho] at hbb
      have hbb2 : (if e = NetErr.timeout ∧ o.bytes ≠ [] then Except.ok o.bytes
          else Except.error e) = Except.ok b := hbb
      by_cases ht : e = NetErr.timeout ∧ o.bytes ≠ []
      · rw [if_pos ht] at hbb2
        injection hbb2 with hbb3
        rw [← hbb3]
        exact ⟨rfl, hb⟩
      · rw [if_neg ht] at hbb2
        exact Except.noConfusion hbb2
    | none =>
      rw [ho] at hbb
      have hbb2 : Except.ok o.bytes = Except.ok b := hbb
      injection hbb2 with hbb3
      rw [← hbb3]
      exact ⟨rfl, hb⟩
  · intro he hne2
    unfold connReadSingle
    rw [he]
    show (if NetErr.timeout = NetErr.timeout ∧ o.bytes ≠ [] then Except.ok o.bytes
        else Except.error NetErr.timeout) = Except.ok o.bytes
    rw [if_pos ⟨rfl, hne2⟩]
  · intro he
    unfold connReadSingle
    rw [he]

/-- C5 witness: a timeout after two bytes returns the partial buffer and
no error. -/
theorem claim_C5_single_read_witness :
    (0 : Int) < 4 ∧
    (⟨"XY".data, some .timeout⟩ : ReadOutcome).bytes.length ≤ readBufSize 4 ∧
    ConnReadNWithTimeout 4 (.ok []) ⟨"XY".data, some .timeout⟩ = .ok "XY".data :=
  ⟨by decide, by decide,
    (claim_C5_single_read 4 (.ok []) ⟨"XY".data, some .timeout⟩ (by decide)
      (by decide)).2.1 rfl (by decide)⟩

/-! ## Lemmas about the HTTP port token -/

theorem begins_append_self (sub x : Chars) : begins sub (sub ++ x) = true := by
  induction sub with
  | nil => rfl
  | cons a s ih => simp [begins, ih]

theorem removeFirstSub_first (sub suf : Chars) :
    ∀ pre : Chars,
      (∀ i, i < pre.length → begins sub (pre.drop i ++ (sub ++ suf)) = false) →
      removeFirstSub sub (pre ++ (sub ++ suf)) = pre ++ suf := by
  intro pre
  induction pre with
  | nil =>
    intro _
    simp only [List.nil_append]
    cases hss : sub ++ suf with
    | nil =>
      rcases List.append_eq_nil.mp hss with ⟨h1, h2⟩
      simp [removeFirstSub, h2]
    | cons c rest =>
      have hb : begins sub (c :: rest) = true := by
        rw [← hss]
        exact begins_append_self sub suf
      show (if begins sub (c :: rest) = true then (c :: rest).drop sub.length
          else c :: removeFirstSub sub rest) = suf
      rw [if_pos hb, ← hss, List.drop_left]
  | cons c pre2 ih =>
    intro hfirst
    have h0 : begins sub (c :: (pre2 ++ (sub ++ suf))) = false := by
      have h := hfirst 0 (by simp)
      simpa using h
    show (if begins sub (c :: (pre2 ++ (sub ++ suf))) = true then
        (c :: (pre2 ++ (sub ++ suf))).drop sub.length
      else c :: removeFirstSub sub (pre2 ++ (sub ++ suf))) = c :: (pre2 ++ suf)
    rw [if_neg (by rw [h0]; exact Bool.false_ne_true)]
    have ih2 := ih fun i hi => by
      have h := hfirst (i + 1) (by simp; omega)
      simpa using h
    rw [ih2]

/-! ## C6 -/

/-- C6 counterexample: for the template `:8080{{BaseURL}}:8080/admin`
(written with escaped braces) against `http://host.example`, the code
removes the *first* occurrence of `:8080` — the leading one — so the
token's `:N` suffix survives substitution and the produced URL carries the
port twice, refuting the claim that the `:N` suffix of the token is
removed before substitution. -/
theorem claim_C6_first_occurrence_counterexample :
    UsePortFromPayload c6InputURL c6TrickyTemplate =
      (⟨"http".data, "host.example".data, "8080".data, []⟩,
        "\x7b\x7bBaseURL\x7d\x7d:8080/admin".data) ∧
    findPortToken (UsePortFromPayload c6InputURL c6TrickyTemplate).2 =
      some "8080".data ∧
    (UsePortFromPayload c6InputURL c6TrickyTemplate).2 ≠
      ":8080\x7b\x7bBaseURL\x7d\x7d/admin".data ∧
    makeWithPortOverride c6InputURL c6TrickyTemplate =
      "http://host.example:8080:8080/admin".data := by
  refine ⟨rfl, rfl, by decide, rfl⟩

/-- C6 amended: `UsePortFromPayload` sets the URL port to the digits of
the first `BaseURL:port` token and removes the *first* occurrence of
`":" + port` from the template — which is the token's suffix exactly when
`":" + port` does not occur earlier in the string — and on the spec's
example `{{BaseURL}}:8080/admin` against `http://host.example` the
substituted request URL is `http://host.example:8080/admin`. -/
theorem claim_C6_baseurl_port_override (parsed : HttpURL)
    (data digits pre suf : Chars)
    (hfind : findPortToken data = some digits)
    (hsplit : data = pre ++ ((':' :: digits) ++ suf))
    (hfirst : ∀ i, i < pre.length →
      begins (':' :: digits) (pre.drop i ++ ((':' :: digits) ++ suf)) = false) :
    UsePortFromPayload parsed data = ({ parsed with port := digits }, pre ++ suf) ∧
    makeWithPortOverride c6InputURL c6Template =
      "http://host.example:8080/admin".data := by
  constructor
  · have h1 : UsePortFromPayload parsed data =
        ({ parsed with port := digits }, removeFirstSub (':' :: digits) data) := by
      unfold UsePortFromPayload
      rw [hfind]
    rw [h1, hsplit, removeFirstSub_first (':' :: digits) suf pre hfirst]
  · rfl

/-- C6 witness: the hypotheses hold for the spec's example template with
`pre` the token and `suf` the path. -/
theorem claim_C6_baseurl_port_override_witness :
    UsePortFromPayload c6InputURL c6Template =
      (⟨"http".data, "host.example".data, "8080".data, []⟩,
        "\x7b\x7bBaseURL\x7d\x7d".data ++ "/admin".data) ∧
    makeWithPortOverride c6InputURL c6Template =
      "http://host.example:8080/admin".data :=
  claim_C6_baseurl_port_override c6InputURL c6Template ("8080".data)
    ("\x7b\x7bBaseURL\x7d\x7d".data) ("/admin".data) rfl (by decide) (by decide)

/-! ## Lemmas about the network input loop -/

theorem processStep_ok_fields (env : ExecEnv) (inp : NetInput)
    (script : List ReadOutcome) (st st1 : ExecState) (sc1 : List ReadOutcome)
    (hok : processStep env inp script st = .ok (st1, sc1)) :
    st1.evalTrace = st.evalTrace ++ [st.interim] ∧
    (((inp.read = 0 ∨ inp.name = []) ∧ st1.interim = st.interim ∧
        st1.inputEvents = st.inputEvents) ∨
      (inp.name ≠ [] ∧ 0 < inp.read ∧
        ∃ buf, connReadSingle (script.headD ⟨[], some .closed⟩) = .ok buf ∧
          st1.interim = setEntry st.interim inp.name buf ∧
          st1.inputEvents = setEntry st.inputEvents inp.name buf)) := by
  unfold processStep at hok
  simp only [] at hok
  split at hok
  · exact absurd hok (by simp)
  · split at hok
    · exact absurd hok (by simp)
    · split at hok
      · exact absurd hok (by simp)
      · split at hok
        · split at hok
          · exact absurd hok (by simp)
          · split at hok
            · rename_i hread _ _ hbuf hname
              injection hok with hok2
              injection hok2 with hok3 hok4
              rw [← hok3]
              refine ⟨rfl, Or.inr ⟨hname, by omega, _, hbuf, rfl, rfl⟩⟩
            · rename_i hread _ _ hbuf hname
              injection hok with hok2
              injection hok2 with hok3 hok4
              rw [← hok3]
              push_neg at hname
              exact ⟨rfl, Or.inl ⟨Or.inr hname, rfl, rfl⟩⟩
        · rename_i hread
          injection hok with hok2
          injection hok2 with hok3 hok4
          rw [← hok3]
          refine ⟨rfl, Or.inl ⟨Or.inl (by omega), rfl, rfl⟩⟩

theorem processStep_err_fields (env : ExecEnv) (inp : NetInput)
    (script : List ReadOutcome) (st st1 : ExecState) (sc1 : List ReadOutcome)
    (e : ExecErr) (herr : processStep env inp script st = .error (st1, sc1, e)) :
    st1.interim = st.interim ∧ st1.inputEvents = st.inputEvents ∧
    st1.evalTrace = st.evalTrace ++ [st.interim] := by
  unfold processStep at herr
  simp only [] at herr
  split at herr
  · injection herr with h2
    injection h2 with h3 h4
    rw [← h3]
    exact ⟨rfl, rfl, rfl⟩
  · split at herr
    · injection herr with h2
      injection h2 with h3 h4
      rw [← h3]
      exact ⟨rfl, rfl, rfl⟩
    · split at herr
      · injection herr with h2
        injection h2 with h3 h4
        rw [← h3]
        exact ⟨rfl, rfl, rfl⟩
      · split at herr
        · split at herr
          · injection herr with h2
            injection h2 with h3 h4
            rw [← h3]
            exact ⟨rfl, rfl, rfl⟩
          · split at herr
            · exact absurd herr (by simp)
            · exact absurd herr (by simp)
        · exact absurd herr (by simp)

theorem processInputs_append (env : ExecEnv) (l1 l2 : List NetInput) :
    ∀ (script : List ReadOutcome) (st : ExecState),
      processInputs env (l1 ++ l2) script st =
        match processInputs env l1 script st with
        | (st1, sc1, none) => processInputs env l2 sc1 st1
        | (st1, sc1, some e) => (st1, sc1, some e) := by
  induction l1 with
  | nil => intro script st; rfl
  | cons inp t ih =>
    intro script st
    show processInputs env (inp :: (t ++ l2)) script st = _
    cases hstep : processStep env inp script st with
    | error v =>
      obtain ⟨st1, sc1, e⟩ := v
      simp [processInputs, hstep]
    | ok v =>
      obtain ⟨st1, sc1⟩ := v
      simp [processInputs, hstep, ih sc1 st1]

theorem processInputs_evalTrace_mono (env : ExecEnv) (l : List NetInput) :
    ∀ (script : List ReadOutcome) (st : ExecState),
      ∃ tl, (processInputs env l script st).1.evalTrace = st.evalTrace ++ tl := by
  induction l with
  | nil => intro script st; exact ⟨[], by simp [processInputs]⟩
  | cons inp t ih =>
    intro script st
    cases hstep : processStep env inp script st with
    | error v =>
      obtain ⟨st1, sc1, e⟩ := v
      have hf := processStep_err_fields env inp script st st1 sc1 e hstep
      refine ⟨[st.interim], ?_⟩
      simp [processInputs, hstep, hf.2.2]
    | ok v =>
      obtain ⟨st1, sc1⟩ := v
      have hf := processStep_ok_fields env inp script st st1 sc1 hstep
      obtain ⟨tl, htl⟩ := ih sc1 st1
      refine ⟨[st.interim] ++ tl, ?_⟩
      have : processInputs env (inp :: t) script st = processInputs env t sc1 st1 := by
        simp [processInputs, hstep]
      rw [this, htl, hf.1, List.append_assoc]

theorem processInputs_preserves (env : ExecEnv) (nm B : Chars) (l : List NetInput)
    (hnm : ∀ j ∈ l, j.name ≠ nm) :
    ∀ (script : List ReadOutcome) (st : ExecState),
      lookupEntry st.interim nm = some B →
      lookupEntry st.inputEvents nm = some B →
      keysNodup st.inputEvents →
      lookupEntry (processInputs env l script st).1.interim nm = some B ∧
      lookupEntry (processInputs env l script st).1.inputEvents nm = some B ∧
      keysNodup (processInputs env l script st).1.inputEvents ∧
      ∀ m ∈ (processInputs env l script st).1.evalTrace.drop st.evalTrace.length,
        lookupEntry m nm = some B := by
  induction l with
  | nil =>
    intro script st hi he hn
    refine ⟨hi, he, hn, ?_⟩
    intro m hm
    simp [processInputs] at hm
  | cons inp t ih =>
    intro script st hi he hn
    have hstepfacts : ∀ (st1 : ExecState),
        st1.evalTrace = st.evalTrace ++ [st.interim] →
        (st1.interim = st.interim ∧ st1.inputEvents = st.inputEvents) ∨
          (∃ buf, st1.interim = setEntry st.interim inp.name buf ∧
            st1.inputEvents = setEntry st.inputEvents inp.name buf) →
        lookupEntry st1.interim nm = some B ∧ lookupEntry st1.inputEvents nm = some B ∧
          keysNodup st1.inputEvents := by
      intro st1 _ hcase
      rcases hcase with ⟨hint, hie⟩ | ⟨buf, hint, hie⟩
      · rw [hint, hie]
        exact ⟨hi, he, hn⟩
      · rw [hint, hie]
        have hne : inp.name ≠ nm := hnm inp (List.mem_cons_self _ _)
        exact ⟨by rw [lookupEntry_setEntry_ne _ _ _ _ hne]; exact hi,
          by rw [lookupEntry_setEntry_ne _ _ _ _ hne]; exact he,
          keysNodup_setEntry _ _ _ hn⟩
    cases hstep : processStep env inp script st with
    | error v =>
      obtain ⟨st1, sc1, e⟩ := v
      have hf := processStep_err_fields env inp script st st1 sc1 e hstep
      have hres : processInputs env (inp :: t) script st = (st1, sc1, some e) := by
        simp [processInputs, hstep]
      obtain ⟨h1, h2, h3⟩ := hstepfacts st1 hf.2.2 (Or.inl ⟨hf.1, hf.2.1⟩)
      rw [hres]
      refine ⟨h1, h2, h3, ?_⟩
      intro m hm
      rw [hf.2.2, List.drop_left] at hm
      rw [List.mem_singleton.mp hm]
      exact hi
    | ok v =>
      obtain ⟨st1, sc1⟩ := v
      have hf := processStep_ok_fields env inp script st st1 sc1 hstep
      have hcase : (st1.interim = st.interim ∧ st1.inputEvents = st.inputEvents) ∨
          ∃ buf, st1.interim = setEntry st.interim inp.name buf ∧
            st1.inputEvents = setEntry st.inputEvents inp.name buf := by
        rcases hf.2 with ⟨_, h1, h2⟩ | ⟨_, _, buf, _, h1, h2⟩
        · exact Or.inl ⟨h1, h2⟩
        · exact Or.inr ⟨buf, h1, h2⟩
      obtain ⟨h1, h2, h3⟩ := hstepfacts st1 hf.1 hcase
      have hres : processInputs env (inp :: t) script st = processInputs env t sc1 st1 := by
        simp [processInputs, hstep]
      rw [hres]
      obtain ⟨g1, g2, g3, g4⟩ :=
        ih (fun j hj => hnm j (List.mem_cons_of_mem _ hj)) sc1 st1 h1 h2 h3
      refine ⟨g1, g2, g3, ?_⟩
      intro m hm
      obtain ⟨tl, htl⟩ := processInputs_evalTrace_mono env t sc1 st1
      rw [htl, hf.1, List.append_assoc, List.drop_left] at hm
      rcases List.mem_cons.mp hm with rfl | hm2
      · exact hi
      · apply g4
        rw [htl, List.drop_left]
        exact hm2

theorem processStep_ok_capture (env : ExecEnv) (inp : NetInput)
    (script : List ReadOutcome) (st st1 : ExecState) (sc1 : List ReadOutcome)
    (B : Chars) (hname : inp.name ≠ []) (hread : 0 < inp.read)
    (hbuf : connReadSingle (script.headD ⟨[], some .closed⟩) = .ok B)
    (hok : processStep env inp script st = .ok (st1, sc1)) :
    st1.interim = setEntry st.interim inp.name B ∧
    st1.inputEvents = setEntry st.inputEvents inp.name B ∧
    st1.evalTrace = st.evalTrace ++ [st.interim] := by
  have hf := processStep_ok_fields env inp script st st1 sc1 hok
  rcases hf.2 with ⟨hguard, _, _⟩ | ⟨_, _, buf, hbuf2, h1, h2⟩
  · rcases hguard with h | h
    · omega
    · exact absurd h hname
  · rw [hbuf] at hbuf2
    injection hbuf2 with hbe
    rw [← hbe] at h1 h2
    exact ⟨h1, h2, hf.1⟩

theorem lookupEntry_buildOutputEvent (base previous interim ie payloads : VarMap)
    (nm : Chars) (B : Chars) (hbase : keysNodup base) (hie : keysNodup ie)
    (hlook : lookupEntry ie nm = some B) :
    lookupEntry (buildOutputEvent base previous interim ie payloads) nm = some B := by
  unfold buildOutputEvent mergeEntries
  have hoe_nodup : keysNodup (foldSet (foldSet (foldSet base previous) interim) ie) :=
    keysNodup_foldSet _ _ (keysNodup_foldSet _ _ (keysNodup_foldSet _ _ hbase))
  have hoe_look : lookupEntry (foldSet (foldSet (foldSet base previous) interim) ie)
      nm = some B := by
    rw [lookupEntry_foldSet, lookupLast_eq_lookupEntry ie nm hie, hlook]
  rw [lookupEntry_foldSet, lookupLast_eq_lookupEntry _ nm hoe_nodup, hoe_look]

theorem processStep_unresolved (env : ExecEnv) (inp : NetInput)
    (script : List ReadOutcome) (st : ExecState) (fd : Chars)
    (heval : env.eval inp.data st.interim = .ok fd)
    (hunres : hasPlaceholder fd = true) :
    processStep env inp script st =
      .error ({ st with
          evalTrace := st.evalTrace ++ [st.interim],
          reqDump := st.reqDump ++ fd }, script, .unresolved) := by
  unfold processStep
  rw [heval]
  simp [hunres]

/-! ## C1 -/

/-- C1 counterexample: the DNS builder, finding an unresolved placeholder
in the rendered request string, refuses to send but returns nil event and
nil error — not the non-nil recoverable error the claim requires of every
builder; and in the network builder a variant whose second input is
unresolved aborts with an error only after the first input's bytes are
already on the wire, so "no wire bytes for that variant" also fails. -/
theorem claim_C1_counterexample :
    dnsExecute (.ok ⟨"\x7b\x7bx\x7d\x7d".data⟩) [] true true =
      ⟨false, false, false⟩ ∧
    (processInputs demoEnv [c1GoodInput, c1BadInput] [] emptyExecState).2.2 =
      some .unresolved ∧
    (processInputs demoEnv [c1GoodInput, c1BadInput] [] emptyExecState).1.writes =
      ["hello".data] :=
  ⟨rfl, rfl, rfl⟩

/-- C1 amended: when an input's evaluated text still holds an unresolved
placeholder, the network builder writes none of that input's bytes (the
wire holds exactly the earlier inputs' bytes) and aborts the variant with
a non-nil error that `executeRequestWithPayloads` returns to its caller
with no event; the DNS builder refuses to send the request but returns
nil error and nil event, logging only a warning. -/
theorem claim_C1_unresolved_refusal (env : ExecEnv) (l1 l2 : List NetInput)
    (inp : NetInput) (script sc1 : List ReadOutcome) (st0 st1 : ExecState)
    (fd : Chars)
    (hpre : processInputs env l1 script st0 = (st1, sc1, none))
    (heval : env.eval inp.data st1.interim = .ok fd)
    (hunres : hasPlaceholder fd = true) :
    (processInputs env (l1 ++ inp :: l2) script st0).2.2 = some .unresolved ∧
    (processInputs env (l1 ++ inp :: l2) script st0).1.writes = st1.writes ∧
    (∀ (vars0 payloads0 previous base : VarMap) (readSize : Nat) (readAll : Bool)
        (readAllResult : Except NetErr Chars),
      st0 = ⟨[], mergeEntries vars0 payloads0, payloads0, [], [], [], []⟩ →
      (executeRequestWithPayloads env none (l1 ++ inp :: l2) script vars0 payloads0
          previous base readSize readAll readAllResult).2.1 = some .unresolved ∧
      (executeRequestWithPayloads env none (l1 ++ inp :: l2) script vars0 payloads0
          previous base readSize readAll readAllResult).2.2 = none) ∧
    (∀ (msg : DnsMsg) (resolvers : List Chars) (fallbackOk responseOk : Bool),
      hasPlaceholder msg.text = true → resolvers.any hasPlaceholder = false →
      dnsExecute (.ok msg) resolvers fallbackOk responseOk = ⟨false, false, false⟩) := by
  have hrun : processInputs env (l1 ++ inp :: l2) script st0 =
      ({ st1 with
          evalTrace := st1.evalTrace ++ [st1.interim],
          reqDump := st1.reqDump ++ fd }, sc1, some .unresolved) := by
    rw [processInputs_append env l1 (inp :: l2) script st0, hpre]
    show processInputs env (inp :: l2) sc1 st1 = _
    show (match processStep env inp sc1 st1 with
      | .error (st2, sc2, e) => (st2, sc2, some e)
      | .ok (st2, sc2) => processInputs env l2 sc2 st2) = _
    rw [processStep_unresolved env inp sc1 st1 fd heval hunres]
  refine ⟨by rw [hrun], by rw [hrun], ?_, ?_⟩
  · intro vars0 payloads0 previous base readSize readAll readAllResult hst0
    subst hst0
    constructor
    · show (match processInputs env (l1 ++ inp :: l2) script
          ⟨[], mergeEntries vars0 payloads0, payloads0, [], [], [], []⟩ with
        | (st, _, some e) => (st, some e, (none : Option VarMap))
        | (st, rest, none) => _).2.1 = some ExecErr.unresolved
      rw [hrun]
    · show (match processInputs env (l1 ++ inp :: l2) script
          ⟨[], mergeEntries vars0 payloads0, payloads0, [], [], [], []⟩ with
        | (st, _, some e) => (st, some e, (none : Option VarMap))
        | (st, rest, none) => _).2.2 = none
      rw [hrun]
  · intro msg resolvers fallbackOk responseOk hmsg hres
    unfold dnsExecute
    simp [hres, hmsg]

/-- C1 witness: all hypotheses hold for the two-input network run and the
concrete DNS render. -/
theorem claim_C1_unresolved_refusal_witness :
    (processInputs demoEnv ([c1GoodInput] ++ c1BadInput :: []) [] emptyExecState).2.2 =
      some .unresolved ∧
    (processInputs demoEnv ([c1GoodInput] ++ c1BadInput :: []) [] emptyExecState).1.writes =
      ["hello".data] ∧
    (executeRequestWithPayloads demoEnv none ([c1GoodInput] ++ c1BadInput :: []) []
        [] [] [] [] 0 false (.ok [])).2.1 = some .unresolved ∧
    dnsExecute (.ok ⟨"\x7b\x7by\x7d\x7d".data⟩) [] true true =
      ⟨false, false, false⟩ := by
  have h := claim_C1_unresolved_refusal demoEnv [c1GoodInput] [] c1BadInput [] []
    emptyExecState ⟨["hello".data], [], [], [], [], "hello".data, [[]]⟩
    ("\x7b\x7bx\x7d\x7d".data) rfl rfl rfl
  exact ⟨h.1, h.2.1, (h.2.2.1 [] [] [] [] 0 false (.ok []) rfl).1,
    h.2.2.2 ⟨"\x7b\x7by\x7d\x7d".data⟩ [] true true rfl rfl⟩

/-! ## C7 -/

/-- C7: an input with a capture name that reads bytes `B` binds `B`
verbatim under that name in `inputEvents` and in the `interimValues` map
used to evaluate every subsequent input of the request (each later
evaluation snapshot holds the binding, no later input rebinding the
name), and the assembled event map holds `B` under the capture name. -/
theorem claim_C7_capture_roundtrip (env : ExecEnv) (inp : NetInput)
    (l2 : List NetInput) (script : List ReadOutcome) (st : ExecState) (B : Chars)
    (hname : inp.name ≠ []) (hread : 0 < inp.read)
    (hbuf : connReadSingle (script.headD ⟨[], some .closed⟩) = .ok B)
    (hnorebind : ∀ j ∈ l2, j.name ≠ inp.name)
    (hnodupIE : keysNodup st.inputEvents)
    (hok : (processInputs env (inp :: l2) script st).2.2 = none) :
    lookupEntry (processInputs env (inp :: l2) script st).1.inputEvents inp.name =
      some B ∧
    lookupEntry (processInputs env (inp :: l2) script st).1.interim inp.name =
      some B ∧
    (∀ m ∈ (processInputs env (inp :: l2) script st).1.evalTrace.drop
        (st.evalTrace.length + 1), lookupEntry m inp.name = some B) ∧
    (∀ base previous : VarMap, keysNodup base →
      lookupEntry
        (buildOutputEvent base previous
          (processInputs env (inp :: l2) script st).1.interim
          (processInputs env (inp :: l2) script st).1.inputEvents
          (processInputs env (inp :: l2) script st).1.payloads) inp.name = some B) := by
  cases hstep : processStep env inp script st with
  | error v =>
    obtain ⟨st1, sc1, e⟩ := v
    have hres : processInputs env (inp :: l2) script st = (st1, sc1, some e) := by
      simp [processInputs, hstep]
    rw [hres] at hok
    cases hok
  | ok v =>
    obtain ⟨st1, sc1⟩ := v
    have hcap := processStep_ok_capture env inp script st st1 sc1 B hname hread hbuf hstep
    have hres : processInputs env (inp :: l2) script st = processInputs env l2 sc1 st1 := by
      simp [processInputs, hstep]
    rw [hres]
    have hi1 : lookupEntry st1.interim inp.name = some B := by
      rw [hcap.1]
      exact lookupEntry_setEntry_self _ _ _
    have he1 : lookupEntry st1.inputEvents inp.name = some B := by
      rw [hcap.2.1]
      exact lookupEntry_setEntry_self _ _ _
    have hn1 : keysNodup st1.inputEvents := by
      rw [hcap.2.1]
      exact keysNodup_setEntry _ _ _ hnodupIE
    obtain ⟨g1, g2, g3, g4⟩ :=
      processInputs_preserves env inp.name B l2 hnorebind sc1 st1 hi1 he1 hn1
    refine ⟨g2, g1, ?_, ?_⟩
    · intro m hm
      apply g4
      obtain ⟨tl, htl⟩ := processInputs_evalTrace_mono env l2 sc1 st1
      rw [htl, List.drop_left]
      rw [htl, hcap.2.2, List.append_assoc] at hm
      have hlen : st.evalTrace.length + 1 = (st.evalTrace ++ [st.interim]).length := by
        simp
      rw [hlen, ← List.append_assoc, List.drop_left] at hm
      exact hm
    · intro base previous hbase
      exact lookupEntry_buildOutputEvent base previous _ _ _ inp.name B hbase g3 g2

/-- C7 witness: a two-byte capture named `cap` followed by an uncaptured
input; the capture appears in `inputEvents`, in the later evaluation
snapshot and in the event map. -/
theorem claim_C7_capture_roundtrip_witness :
    lookupEntry (processInputs demoEnv [c7CaptureInput, c7LaterInput] c7Script
        emptyExecState).1.inputEvents "cap".data = some "XY".data ∧
    lookupEntry (buildOutputEvent [] []
        (processInputs demoEnv [c7CaptureInput, c7LaterInput] c7Script
          emptyExecState).1.interim
        (processInputs demoEnv [c7CaptureInput, c7LaterInput] c7Script
          emptyExecState).1.inputEvents
        (processInputs demoEnv [c7CaptureInput, c7LaterInput] c7Script
          emptyExecState).1.payloads) "cap".data = some "XY".data := by
  have h := claim_C7_capture_roundtrip demoEnv c7CaptureInput [c7LaterInput] c7Script
    emptyExecState ("XY".data) (by decide) (by decide) rfl
    (by
      intro j hj
      rw [List.mem_singleton.mp hj]
      decide)
    (by
      show (([] : VarMap).map Prod.fst).Nodup
      simp)
    rfl
  exact ⟨h.1, h.2.2.2 [] [] (by show (([] : VarMap).map Prod.fst).Nodup; simp)⟩

end ProjectDiscovery
